import Mathlib

/-!
The delve debug-session controller of nvim-go.

A shallow embedding of `src/nvim-go/commands/delve/delve.go` (`debug`,
`parseArgs`, `createBreakpoint`, `cont`, `stdin`, `shortFilePath`) and of
`pathutil.ShortFilePath`, together with the fragments of the Go standard
library these functions call (`strings.Split`, `strings.SplitN`,
`strings.Join`, `strings.ToUpper`, `strings.Replace`, `strconv.Itoa`,
`fmt.Sprintf`).

Conventions of the embedding:

* a Go `string` is its sequence of bytes (`List UInt8`);
* Go `int` values are `Int`, `uint64` values are `Nat`;
* a Go pointer that may be `nil` is an `Option`;
* a call either returns, or unwinds with a run-time panic (`Res.panic`);
* calls on collaborators whose code is not part of the program (the delve RPC
  client, the neovim client, `nvim.ErrorWrap`, `printTerminal`, the `os`
  package) append an `Effect` to the trace of the `World`, and take their
  answer from an `Env`.
-/

namespace NvimGo

set_option maxRecDepth 100000

/-! ## Go strings -/

/-- A Go string: an immutable sequence of bytes. -/
abbrev GoString := List UInt8

/-- The bytes of a string literal of the Go source (its UTF-8 encoding). -/
def lit (s : String) : GoString := s.data.flatMap String.utf8EncodeChar

/-- The function `strings.Index(s, sep)`: the byte offset of the leftmost
occurrence of `sep` in `s`, `none` standing for Go's `-1`. -/
def Index : GoString → GoString → Option Nat
  | [], sep => if sep.isPrefixOf [] then some 0 else none
  | b :: s, sep =>
    if sep.isPrefixOf (b :: s) then some 0 else (Index s sep).map (· + 1)

/-- The function `strings.Split(s, sep)` for a separator of one byte (the
program only splits on `"."`): the pieces of `s` between the occurrences of
the separator; always at least one piece. -/
def Split : GoString → UInt8 → List GoString
  | [], _ => [[]]
  | b :: s, sep =>
    if b = sep then [] :: Split s sep
    else match Split s sep with
      | [] => [[b]]
      | piece :: pieces => (b :: piece) :: pieces

/-- The function `strings.SplitN(s, sep, 2)` for a separator of one byte: `s`
cut at the first occurrence of the separator, or `[s]` when there is none. -/
def SplitN2 (s : GoString) (sep : UInt8) : List GoString :=
  match Index s [sep] with
  | none => [s]
  | some i => [s.take i, s.drop (i + 1)]

/-- The function `strings.Join(a, sep)`. -/
def Join : List GoString → GoString → GoString
  | [], _ => []
  | [s], _ => s
  | s :: t :: rest, sep => s ++ sep ++ Join (t :: rest) sep

/-- Upper-casing of one ASCII byte: `a`..`z` go to `A`..`Z`, every other byte
is kept. -/
def upperASCII (b : UInt8) : UInt8 :=
  if 97 ≤ b ∧ b ≤ 122 then b - 32 else b

/-- The function `strings.ToUpper` on the strings `parseArgs` passes to it,
which have exactly one byte. An ASCII byte is upper-cased. A single byte of
value 0x80 or more is not valid UTF-8, and what `strings.ToUpper` makes of it
depends on the Go release (kept as it is by the old `strings.Map`, replaced by
the encoding of U+FFFD by the newer one): that answer is the parameter
`nonASCII`. -/
def ToUpper (nonASCII : UInt8 → GoString) (s : GoString) : GoString :=
  s.flatMap fun b => if b < 128 then [upperASCII b] else nonASCII b

/-- The function `strings.Replace(s, old, new, 1)`: `s` with the leftmost
occurrence of `old` replaced by `new`; `s` itself when `old` equals `new` or
does not occur. An empty `old` occurs at offset 0. -/
def Replace1 (s old new : GoString) : GoString :=
  if old = new then s
  else match Index s old with
    | none => s
    | some j => s.take j ++ new ++ s.drop (j + old.length)

/-! ## Number formatting -/

/-- The digits of `n` in the given base, lower-case, most significant first
(`strconv.FormatUint`). -/
def FormatUint (n base : Nat) : GoString :=
  (Nat.toDigits base n).map fun c => UInt8.ofNat c.toNat

/-- The function `strconv.Itoa`: decimal digits, with a leading `-` for a
negative number. -/
def Itoa (i : Int) : GoString :=
  if i < 0 then 45 :: FormatUint i.natAbs 10 else FormatUint i.natAbs 10

/-! ## fmt.Sprintf -/

/-- An operand of `fmt.Sprintf`, of one of the Go types the program formats. -/
inductive Arg where
  | string (s : GoString)
  | int (i : Int)
  | uint64 (n : Nat)
  deriving DecidableEq

/-- One directive of a format string applied to its operand, for the
directives of the program: `%s` on a string, `%d` on an integer, and
`%#v` on a `uint64`, which prints it in hexadecimal after `0x`. Anything else
is outside the fragment of `fmt` modelled here (`none`). -/
def formatArg (sharp : Bool) (verb : UInt8) (a : Arg) : Option GoString :=
  match sharp, a with
  | false, .string s => if verb = 115 then some s else none
  | false, .int i => if verb = 100 then some (Itoa i) else none
  | false, .uint64 n => if verb = 100 then some (FormatUint n 10) else none
  | true, .uint64 n => if verb = 118 then some (lit "0x" ++ FormatUint n 16) else none
  | true, _ => none

/-- The function `fmt.Sprintf(format, args...)`: the bytes of the format are
copied, and each directive (`%`, an optional `#` flag, a verb) consumes the
next operand. `none` when the format or an operand is outside the modelled
fragment (a missing or surplus operand, `%%`, widths, other verbs). -/
def Sprintf : GoString → List Arg → Option GoString
  | [], [] => some []
  | [], _ :: _ => none
  | 37 :: 35 :: verb :: rest, a :: args =>
    match formatArg true verb a, Sprintf rest args with
    | some s, some t => some (s ++ t)
    | _, _ => none
  | 37 :: verb :: rest, a :: args =>
    match formatArg false verb a, Sprintf rest args with
    | some s, some t => some (s ++ t)
    | _, _ => none
  | 37 :: _, _ => none
  | b :: rest, args => (Sprintf rest args).map (b :: ·)

/-! ## Outcomes, errors and the data of the delve API -/

/-- The run-time panics the modelled code can raise. -/
inductive Panic where
  /-- An index expression `a[i]` with `i` outside `0 ≤ i < len(a)`. -/
  | indexOutOfRange
  /-- A slice expression `s[i:j]` with bounds outside the string. -/
  | sliceOutOfRange
  /-- A field read or method call through a nil pointer. -/
  | nilDereference
  /-- A failed type assertion `x.(T)`. -/
  | typeAssertion
  deriving DecidableEq, Repr

/-- How a call ends: it returns a value, it unwinds with a panic, or it leaves
the fragment of the standard library modelled here. -/
inductive Res (α : Type) where
  | ok (a : α)
  | panic (p : Panic)
  | unmodelled
  deriving DecidableEq

/-- A Go `error` value: made by `errors.New`, wrapped by `errors.Annotate`, or
handed back by a collaborator. The nil error is `none : Option GoError`. -/
inductive GoError where
  | New (msg : GoString)
  | Annotated (cause : GoError) (msg : GoString)
  | external (code : Nat)
  deriving DecidableEq

/-- The function `errors.Annotate(err, msg)` of juju/errors: nil for a nil
error, otherwise the error wrapped with the message. -/
def Annotate (err : Option GoError) (msg : GoString) : Option GoError :=
  err.map fun e => GoError.Annotated e msg

/-- The constant `pkgDelve`. -/
def pkgDelve : GoString := lit "Delve"

/-- The fields of `delveapi.Breakpoint` the program reads or writes. `HitCount`
is a Go map from the decimal goroutine id to a count. -/
structure Breakpoint where
  ID : Int := 0
  Name : GoString := []
  File : GoString := []
  Line : Int := 0
  FunctionName : GoString := []
  HitCount : List (GoString × Nat) := []
  TotalHitCount : Nat := 0
  deriving DecidableEq

/-- The type `delveapi.Function`. -/
structure Function where
  Name : GoString
  deriving DecidableEq

/-- The fields of `delveapi.Thread` the program reads. -/
structure Thread where
  ID : Int
  PC : Nat
  File : GoString
  Line : Int
  Function : Option Function
  GoroutineID : Int
  Breakpoint : Option Breakpoint
  deriving DecidableEq

/-- The fields of `delveapi.DebuggerState` the program reads. -/
structure DebuggerState where
  CurrentThread : Option Thread
  Exited : Bool
  Err : Option GoError
  deriving DecidableEq

/-- A `*nvim.Sign`: nil, or the address of a sign. -/
abbrev SignPtr := Option Nat

/-- An `*os.File`: nil, or an open file. -/
abbrev File := Option Nat

/-- The three tasks `cont` starts with a `go` statement. -/
inductive Task where
  /-- The closure that lists the goroutines and prints the context. -/
  | printContext (dir : GoString) (cThread : Option Thread)
  /-- The call `d.pcSign.Place(v, id, line, file, true)`. -/
  | pcSignPlace (id line : Int) (file : GoString)
  /-- The closure that moves the cursor to `line` and re-centers the view. -/
  | setWindowCursor (line : Int)
  deriving DecidableEq

/-- A call on a collaborator, as recorded in the trace. -/
inductive Effect where
  | ErrorWrap (err : Option GoError)
  | WindowCursor
  | CreateBreakpoint (bpInfo : Option Breakpoint)
  | NewSign
  | Place (sign : SignPtr) (id line : Int) (file : GoString) (clearLastSign : Bool)
  | printTerminal (cmd msg : GoString)
  | Continue
  | go (task : Task)
  | input
  | Pipe
  | Call (cmd args : GoString)
  | Close (f : File)
  | ReadAll (f : File)
  | NewPipeline
  | SetContext (cwd : GoString)
  | restoreContext
  | startServer (cmd path : GoString)
  | waitServer
  | createDebugBuffer
  deriving DecidableEq

/-- What the collaborators answer. -/
structure Env where
  /-- The result of `strings.ToUpper` on a single non-ASCII byte. -/
  upperNonASCII : UInt8 → GoString
  /-- The result of `v.WindowCursor(d.cw)`: the cursor line, or an error. -/
  WindowCursor : Except GoError Int
  /-- The result of `d.client.CreateBreakpoint(bpInfo)`. -/
  CreateBreakpoint : Option Breakpoint → Option Breakpoint × Option GoError
  /-- The result of `nvim.NewSign(...)`. -/
  NewSign : SignPtr × Option GoError
  /-- The result of `d.printTerminal(cmd, msg)`. -/
  printTerminal : GoString → GoString → Option GoError
  /-- The value `nvim.ErrorWrap(v, err)` returns. -/
  ErrorWrap : Option GoError → Option GoError
  /-- The value received from the channel `d.client.Continue()` returns. -/
  Continue : Option DebuggerState
  /-- The result of `v.Call("input", &stdin, ...)`: the error, and the string
  stored in `stdin` (`none` when `stdin` holds no string). -/
  input : Option GoError × Option GoString
  /-- The files `os.Pipe()` returns (reader, writer). -/
  Pipe : File × File
  /-- The result of `d.debugger.Call(cmd, args, d.term)`. -/
  Call : GoString → GoString → Option GoError
  /-- The result of `ioutil.ReadAll(r)`. -/
  ReadAll : File → GoString × Option GoError

/-- The mutable state the modelled functions touch: the `bpSign` map of the
`Delve` value (`none` is the nil map), the process-wide `os.Stdout`, and the
trace of the calls made on collaborators, oldest first. -/
structure World where
  bpSign : Option (List (Int × SignPtr))
  Stdout : File
  trace : List Effect
  deriving DecidableEq

/-- A Go function body: it runs from a world, ends in a result and leaves a
world. -/
def M (α : Type) : Type := World → Res α × World

instance : Monad M where
  pure a := fun w => (Res.ok a, w)
  bind m f := fun w =>
    match m w with
    | (Res.ok a, w1) => f a w1
    | (Res.panic p, w1) => (Res.panic p, w1)
    | (Res.unmodelled, w1) => (Res.unmodelled, w1)

/-- Raise a run-time panic. -/
def raise {α : Type} (p : Panic) : M α := fun w => (Res.panic p, w)

/-- Record a call on a collaborator. -/
def emit (e : Effect) : M Unit :=
  fun w => (Res.ok (), { w with trace := w.trace ++ [e] })

/-- A value of the modelled fragment of the standard library. -/
def modelled {α : Type} : Option α → M α
  | some a => pure a
  | none => fun w => (Res.unmodelled, w)

/-- The call `nvim.ErrorWrap(v, err)`. -/
def ErrorWrap (env : Env) (err : Option GoError) : M (Option GoError) := do
  emit (Effect.ErrorWrap err)
  pure (env.ErrorWrap err)

/-- The call `d.printTerminal(cmd, msg)`. -/
def printTerminal (env : Env) (cmd msg : GoString) : M (Option GoError) := do
  emit (Effect.printTerminal cmd msg)
  pure (env.printTerminal cmd msg)

/-- Reading `m[k]` in a Go map, `none` when the key is absent; a nil map reads
as empty. -/
def mapGet {β : Type} (m : Option (List (Int × β))) (k : Int) : Option β :=
  match m with
  | none => none
  | some l => l.lookup k

/-- The assignment `m[k] = v` on a non-nil Go map. -/
def mapSet {β : Type} (l : List (Int × β)) (k : Int) (v : β) : List (Int × β) :=
  (k, v) :: l.filter fun kv => kv.1 ≠ k

/-! ## delve.go -/

/-- The type `createBreakpointEval`. -/
structure createBreakpointEval where
  File : GoString

/-- The method `parseArgs` (delve.go:118). With no argument the breakpoint is at
the cursor line of `eval.File`. With one argument the name is split on `.`,
the first byte of the piece of index 1 is upper-cased, and the pieces are
joined again. With more the call fails with `Too many arguments`. -/
def parseArgs (env : Env) (args : List GoString) (eval : createBreakpointEval) :
    M (Option Breakpoint × Option GoError) :=
  match args with
  | [] => do
    emit Effect.WindowCursor
    match env.WindowCursor with
    | .error err => pure (none, some err)
    | .ok line => pure (some { File := eval.File, Line := line }, none)
  | [arg] => do
    let splitargs := Split arg 46
    match splitargs[1]? with
    | none => raise Panic.indexOutOfRange
    | some s1 =>
      if s1.length < 1 then raise Panic.sliceOutOfRange
      else do
        let s ← modelled (Sprintf (lit "%s%s")
          [Arg.string (ToUpper env.upperNonASCII (s1.take 1)), Arg.string (s1.drop 1)])
        let splitargs := splitargs.set 1 s
        let name := Join splitargs []
        pure (some { Name := name, FunctionName := arg }, none)
  | _ :: _ :: _ =>
    pure (none, Annotate (some (GoError.New (lit "Too many arguments"))) pkgDelve)

/-- The method `createBreakpoint` (delve.go:160). In the assignment
`d.bpSign[bp.ID], err = nvim.NewSign(...)` the call runs before `bp.ID` is
read, and the map entry is written whatever `err` is. -/
def createBreakpoint (env : Env) (args : List GoString) (eval : createBreakpointEval) :
    M (Option GoError) := do
  let (bpInfo, err) ← parseArgs env args eval
  if err ≠ none then
    let _ ← ErrorWrap env err
  let w ← fun w => (Res.ok w, w)
  if w.bpSign = none then
    (fun w => (Res.ok (), { w with bpSign := some [] }))
  emit (Effect.CreateBreakpoint bpInfo)
  let (bp, err) := env.CreateBreakpoint bpInfo
  if err ≠ none then
    ErrorWrap env (Annotate err pkgDelve)
  else do
    emit Effect.NewSign
    let (sign, err) := env.NewSign
    match bp with
    | none => raise Panic.nilDereference
    | some bp => do
      (fun w => (Res.ok (), { w with bpSign := some (mapSet (w.bpSign.getD []) bp.ID sign) }))
      if err ≠ none then
        ErrorWrap env (Annotate err pkgDelve)
      else do
        let w ← fun w => (Res.ok w, w)
        emit (Effect.Place (mapGet w.bpSign bp.ID).join bp.ID bp.Line bp.File false)
        let err ← printTerminal env (lit "break " ++ bp.FunctionName) []
        if err ≠ none then
          ErrorWrap env err
        else
          pure none

/-- The type `continueEval`. -/
structure continueEval where
  Dir : GoString

/-- The function `pathutil.ShortFilePath` (pathutil.go:54). -/
def ShortFilePath (p cwd : GoString) : GoString :=
  Replace1 p cwd (lit ".")

/-- The function `shortFilePath` (delve.go:372), the same body as
`pathutil.ShortFilePath`. -/
def shortFilePath (p cwd : GoString) : GoString :=
  Replace1 p cwd (lit ".")

/-- The method `cont` (delve.go:198). The value received from the continue
channel is `env.Continue`. The three `go` statements are recorded as `Effect.go`
with the operands they evaluate when the statement runs. -/
def cont (env : Env) (eval : continueEval) : M (Option GoError) := do
  emit Effect.Continue
  let state := env.Continue
  let stop := match state with
    | none => true
    | some st => st.Exited
  if stop then
    match state with
    | none => raise Panic.nilDereference
    | some st => ErrorWrap env (Annotate st.Err pkgDelve)
  else
    match state with
    | none => raise Panic.nilDereference
    | some st => do
      let cThread := st.CurrentThread
      emit (Effect.go (Task.printContext eval.Dir cThread))
      match cThread with
      | none => raise Panic.nilDereference
      | some t => do
        emit (Effect.go (Task.pcSignPlace t.ID t.Line t.File))
        emit (Effect.go (Task.setWindowCursor t.Line))
        match t.Breakpoint with
        | none => raise Panic.nilDereference
        | some bp =>
          match bp.HitCount.lookup (Itoa t.GoroutineID) with
          | some hitCount =>
            match t.Function with
            | none => raise Panic.nilDereference
            | some fn => do
              let msg ← modelled (Sprintf
                (lit "> %s() %s:%d (hits goroutine(%d):%d total:%d) (PC: %#v)")
                [Arg.string fn.Name, Arg.string (shortFilePath t.File eval.Dir),
                  Arg.int t.Line, Arg.int t.GoroutineID, Arg.uint64 hitCount,
                  Arg.uint64 bp.TotalHitCount, Arg.uint64 t.PC])
              printTerminal env (lit "continue") msg
          | none =>
            match t.Function with
            | none => raise Panic.nilDereference
            | some fn => do
              let msg ← modelled (Sprintf
                (lit "> %s() %s:%d (hits total:%d) (PC: %#v)")
                [Arg.string fn.Name, Arg.string (shortFilePath t.File eval.Dir),
                  Arg.int t.Line, Arg.uint64 bp.TotalHitCount, Arg.uint64 t.PC])
              printTerminal env (lit "continue") msg

/-- The method `stdin` (delve.go:335). The process-wide `os.Stdout` is the
field `Stdout` of the world. -/
def stdin (env : Env) : M (Option GoError) := do
  emit Effect.input
  let (err, stdin) := env.input
  if err ≠ none then
    pure none
  else do
    emit Effect.Pipe
    let (r, w) := env.Pipe
    let saveStdout ← fun world => (Res.ok world.Stdout, world)
    (fun world => (Res.ok (), { world with Stdout := w }))
    match stdin with
    | none => raise Panic.typeAssertion
    | some text => do
      let cmd := SplitN2 text 32
      let args := if cmd.length = 2 then cmd.getD 1 [] else []
      match cmd[0]? with
      | none => raise Panic.indexOutOfRange
      | some name => do
        emit (Effect.Call name args)
        let err := env.Call name args
        if err ≠ none then
          ErrorWrap env (Annotate err pkgDelve)
        else do
          emit (Effect.Close w)
          (fun world => (Res.ok (), { world with Stdout := saveStdout }))
          emit (Effect.ReadAll r)
          let (out, err) := env.ReadAll r
          if err ≠ none then
            ErrorWrap env (Annotate err pkgDelve)
          else
            printTerminal env text out

/-- The function `strings.TrimPrefix(s, pre)`: `s` without the leading `pre`
when it starts with it, `s` itself otherwise. -/
def TrimPrefix (s pre : GoString) : GoString :=
  if pre.isPrefixOf s then s.drop pre.length else s

/-- The type `debugEval`. -/
structure debugEval where
  Cwd : GoString
  Dir : GoString

/-- What the collaborators of `debug` answer: the file-system and path
functions it calls, and the methods `startServer` and `createDebugBuffer` of
the `Delve` value, whose code is in other files of the package. -/
structure DebugEnv where
  /-- The result of `pathutil.FindVCSRoot(dir)`. -/
  FindVCSRoot : GoString → GoString
  /-- The value of `os.Getenv("GOPATH")`. -/
  GOPATH : GoString
  /-- The value of `string(filepath.Separator)`. -/
  Separator : GoString
  /-- The function `filepath.Join` on two elements. -/
  filepathJoin : GoString → GoString → GoString
  /-- The function `filepath.Clean`. -/
  filepathClean : GoString → GoString
  /-- The result of `d.startServer(cmd, path)`. -/
  startServer : GoString → GoString → Option GoError
  /-- The result of `d.createDebugBuffer()`. -/
  createDebugBuffer : Option GoError

/-- The method `debug` (delve.go:100). The call `d.ctxt.SetContext(eval.Cwd)`
runs at once and the function it returns is deferred; `d.waitServer(v)` is
deferred after the server start. The deferred calls run when the body returns,
the last one registered first. -/
def debug (env : Env) (denv : DebugEnv) (eval : debugEval) : M (Option GoError) := do
  emit Effect.NewPipeline
  emit (Effect.SetContext eval.Cwd)
  let rootDir := denv.FindVCSRoot eval.Dir
  let srcPath := denv.filepathJoin denv.GOPATH (lit "src") ++ denv.Separator
  let path := denv.filepathClean (TrimPrefix rootDir srcPath)
  emit (Effect.startServer (lit "debug") path)
  let err := denv.startServer (lit "debug") path
  if err ≠ none then
    let _ ← ErrorWrap env err
  emit Effect.createDebugBuffer
  let ret := denv.createDebugBuffer
  emit Effect.waitServer
  emit Effect.restoreContext
  pure ret

/-! ## The specification's wording, and sample data -/

/-- The display name as the specification words it: the argument with its dots
removed and the first character of the part after the LAST `.` upper-cased. -/
def nameTitlingLastDot (arg : GoString) : GoString :=
  let pieces := Split arg 46
  match pieces.getLast? with
  | some (c :: t) => (pieces.dropLast ++ [upperASCII c :: t]).flatten
  | _ => pieces.flatten

/-- Upper-casing of a character as the specification means it, independent of
the code: the byte of `Char.toUpper` of the character with that code. -/
def specUpper (c : UInt8) : UInt8 :=
  UInt8.ofNat (Char.ofNat c.toNat).toUpper.toNat

/-- The value of a digit: `0`..`9` are 0..9 and `a`..`f` are 10..15; no other
byte is a digit. -/
def digitValue (b : UInt8) : Option Nat :=
  if 48 ≤ b ∧ b ≤ 57 then some (b.toNat - 48)
  else if 97 ≤ b ∧ b ≤ 102 then some (b.toNat - 87)
  else none

/-- The number a string of digits denotes in the given base, most significant
digit first; `none` when a byte is not a digit of that base. -/
def numeralValue (base : Nat) (s : GoString) : Option Nat :=
  s.foldl (fun acc b => acc.bind fun a => (digitValue b).bind fun d =>
    if d < base then some (a * base + d) else none) (some 0)

/-- The string `s` is the numeral of `n` in the given base: its digits denote
`n`, it is not empty, and it has no leading zero (so 0 is written `0`). A
number has exactly one numeral in a base. -/
def IsNumeral (base n : Nat) (s : GoString) : Prop :=
  numeralValue base s = some n ∧ s ≠ [] ∧ (s.head? = some 48 → s = [48])

/-- The string `s` is the decimal numeral of the integer `i`: the numeral of
its absolute value, after a `-` when `i` is negative. -/
def IsDecimalInt (i : Int) (s : GoString) : Prop :=
  (0 ≤ i ∧ IsNumeral 10 i.natAbs s) ∨ (i < 0 ∧ ∃ r, s = 45 :: r ∧ IsNumeral 10 i.natAbs r)

/-- The log line of a stop as the specification words it, put together from
the function name `F`, the shortened file `S` and the numerals of the line
`L`, of the goroutine id `G`, of the hit count of that goroutine `N` (when
there is one), of the total `T`, and of the program counter `X` (hexadecimal
digits, written after `0x`). -/
def specLogLine (F S L G : GoString) (N : Option GoString) (T X : GoString) : GoString :=
  match N with
  | some n =>
    lit "> " ++ F ++ lit "() " ++ S ++ lit ":" ++ L ++ lit " (hits goroutine(" ++ G ++
      lit "):" ++ n ++ lit " total:" ++ T ++ lit ") (PC: 0x" ++ X ++ lit ")"
  | none =>
    lit "> " ++ F ++ lit "() " ++ S ++ lit ":" ++ L ++ lit " (hits total:" ++ T ++
      lit ") (PC: 0x" ++ X ++ lit ")"

/-- A sample thread: stopped in `F` at `/w/a.go:10`, goroutine 3, program
counter 1, on a breakpoint hit twice by goroutine 3 and five times in all. -/
def exThread : Thread :=
  { ID := 1, PC := 1, File := lit "/w/a.go", Line := 10, Function := some ⟨lit "F"⟩,
    GoroutineID := 3,
    Breakpoint := some { ID := 1, HitCount := [(lit "3", 2)], TotalHitCount := 5 } }

/-- The sample thread `exThread` on a breakpoint that has a count for
goroutine 4 only. -/
def exThreadNoCount : Thread :=
  { exThread with
    Breakpoint := some { ID := 1, HitCount := [(lit "4", 2)], TotalHitCount := 5 } }

/-- A second sample thread: stopped in `main.main` at `/w/cmd/app/main.go:128`,
goroutine 17, program counter 0x45f2ab, on a breakpoint hit 12 times by
goroutine 17 and 305 times in all. -/
def exThread2 : Thread :=
  { ID := 4, PC := 4584107, File := lit "/w/cmd/app/main.go", Line := 128,
    Function := some ⟨lit "main.main"⟩, GoroutineID := 17,
    Breakpoint := some { ID := 2, HitCount := [(lit "3", 2), (lit "17", 12)],
                         TotalHitCount := 305 } }

/-- A sample environment: every collaborator succeeds, the client echoes the
requested breakpoint, and the continue channel delivers `exThread`. -/
def exEnv : Env :=
  { upperNonASCII := fun b => [b]
    WindowCursor := .ok 10
    CreateBreakpoint := fun b => (b, none)
    NewSign := (some 1, none)
    printTerminal := fun _ _ => none
    ErrorWrap := id
    Continue := some ⟨some exThread, false, none⟩
    input := (none, some (lit "break main.main"))
    Pipe := (some 3, some 4)
    Call := fun _ _ => none
    ReadAll := fun _ => ([], none) }

/-- A sample world: no breakpoint sign yet, `os.Stdout` is file 1, nothing
called so far. -/
def exWorld : World := ⟨none, some 1, []⟩

/-- A sample environment for `debug`: the package is
`/go/src/example.com/app`, and the server cannot be started (error 5) while
creating the buffers succeeds. -/
def exDebugEnv : DebugEnv :=
  { FindVCSRoot := fun dir => dir
    GOPATH := lit "/go"
    Separator := lit "/"
    filepathJoin := fun a b => a ++ lit "/" ++ b
    filepathClean := fun p => p
    startServer := fun _ _ => some (GoError.external 5)
    createDebugBuffer := none }

/-! ## Lemmas on the string functions -/

theorem lit_dot : lit "." = [46] := by decide

theorem Split_ne_nil (s : GoString) (sep : UInt8) : Split s sep ≠ [] := by
  induction s with
  | nil => simp [Split]
  | cons b s ih =>
    unfold Split
    split
    · simp
    · split
      · simp
      · simp

theorem Split_of_not_mem (s : GoString) (sep : UInt8) (h : sep ∉ s) : Split s sep = [s] := by
  induction s with
  | nil => simp [Split]
  | cons b s ih =>
    have hb : b ≠ sep := fun e => h (by simp [e])
    have hs : sep ∉ s := fun e => h (by simp [e])
    simp [Split, hb, ih hs]

theorem Split_append_sep (s0 rest : GoString) (sep : UInt8) (h : sep ∉ s0) :
    Split (s0 ++ sep :: rest) sep = s0 :: Split rest sep := by
  induction s0 with
  | nil => simp [Split]
  | cons b s ih =>
    have hb : b ≠ sep := fun e => h (by simp [e])
    have hs : sep ∉ s := fun e => h (by simp [e])
    simp [Split, hb, ih hs]

/-- Splitting undoes joining: pieces free of the separator, joined with it, are
split back into themselves. -/
theorem Split_Join (pieces : List GoString) (sep : UInt8) (hne : pieces ≠ [])
    (h : ∀ piece ∈ pieces, sep ∉ piece) : Split (Join pieces [sep]) sep = pieces := by
  induction pieces with
  | nil => exact absurd rfl hne
  | cons p ps ih =>
    cases ps with
    | nil => simpa [Join] using Split_of_not_mem p sep (h p (by simp))
    | cons q qs =>
      have h1 : sep ∉ p := h p (by simp)
      have h2 := ih (by simp) (fun piece hp => h piece (by simp [hp]))
      simp only [Join, List.append_assoc, List.singleton_append]
      rw [Split_append_sep _ _ _ h1, h2]

theorem Join_nil (pieces : List GoString) : Join pieces [] = pieces.flatten := by
  induction pieces with
  | nil => rfl
  | cons p ps ih =>
    cases ps with
    | nil => simp [Join]
    | cons q qs => simp [Join, ih]

/-- The pieces of a split, concatenated, are the string without its
separators. -/
theorem flatten_Split (s : GoString) (sep : UInt8) :
    (Split s sep).flatten = s.filter (· ≠ sep) := by
  induction s with
  | nil => simp [Split]
  | cons b s ih =>
    unfold Split
    by_cases hb : b = sep
    · simp [hb, ih]
    · simp only [hb, if_false]
      cases hs : Split s sep with
      | nil => exact absurd hs (Split_ne_nil s sep)
      | cons p ps =>
        rw [hs] at ih
        simp only [List.flatten_cons] at ih
        simpa [hb, List.filter_cons] using ih

theorem ToUpper_ascii (f : UInt8 → GoString) (c : UInt8) (hc : c < 128) :
    ToUpper f [c] = [upperASCII c] := by
  simp [ToUpper, hc]

/-- On ASCII bytes the upper-casing of the code is that of `Char.toUpper`. -/
theorem upperASCII_eq_specUpper (c : UInt8) (hc : c < 128) : upperASCII c = specUpper c := by
  have h : ∀ n : Fin 256, (⟨⟨n⟩⟩ : UInt8) < 128 → upperASCII ⟨⟨n⟩⟩ = specUpper ⟨⟨n⟩⟩ := by
    decide
  obtain ⟨⟨n⟩⟩ := c
  exact h n hc

theorem Index_at_start (s sep : GoString) (h : sep <+: s) : Index s sep = some 0 := by
  have h1 : sep.isPrefixOf s = true := by simpa using h
  cases s <;> simp [Index, h1]

theorem Index_absent (s sep : GoString) (h : ¬ sep <:+: s) : Index s sep = none := by
  induction s with
  | nil =>
    have h1 : ¬ sep <+: [] := fun hp => h hp.isInfix
    have h2 : sep.isPrefixOf [] = false := by
      rw [Bool.eq_false_iff]; intro hp; exact h1 (by simpa using hp)
    simp [Index, h2]
  | cons b s ih =>
    have h1 : ¬ sep <+: b :: s := fun hp => h hp.isInfix
    have h2 : sep.isPrefixOf (b :: s) = false := by
      rw [Bool.eq_false_iff]; intro hp; exact h1 (by simpa using hp)
    have h3 : ¬ sep <:+: s := fun hi => h (hi.trans (List.suffix_cons b s).isInfix)
    simp [Index, h2, ih h3]

/-- The offset `strings.Index` returns is that of the leftmost occurrence. -/
theorem Index_leftmost (pre sep post : GoString)
    (h : ∀ i, i < pre.length → ¬ sep <+: (pre ++ sep ++ post).drop i) :
    Index (pre ++ sep ++ post) sep = some pre.length := by
  induction pre with
  | nil =>
    exact Index_at_start _ _ (by simp)
  | cons b pre ih =>
    have h1 : ¬ sep <+: b :: (pre ++ sep ++ post) := by simpa using h 0 (by simp)
    have h3 := ih (fun i hi => by simpa using h (i + 1) (by simpa using hi))
    simp only [List.append_assoc] at h1 h3
    simp [Index, h1, h3]

/-! ## Lemmas on numerals -/

theorem digitValue_digitChar (k : Nat) (hk : k < 16) :
    digitValue (UInt8.ofNat (Nat.digitChar k).toNat) = some k := by
  have h : ∀ k, k < 16 → digitValue (UInt8.ofNat (Nat.digitChar k).toNat) = some k := by decide
  exact h k hk

theorem numeralValue_append (base : Nat) (s : GoString) (b : UInt8) :
    numeralValue base (s ++ [b]) =
      (numeralValue base s).bind fun a => (digitValue b).bind fun d =>
        if d < base then some (a * base + d) else none := by
  simp [numeralValue, List.foldl_append]

theorem toDigitsCore_numeral (base : Nat) (h2 : 2 ≤ base) (h16 : base ≤ 16) :
    ∀ (fuel n : Nat) (ds : List Char), n < fuel →
      ∃ X : List Char, Nat.toDigitsCore base fuel n ds = X ++ ds ∧
        IsNumeral base n (X.map fun c => UInt8.ofNat c.toNat) := by
  intro fuel
  induction fuel with
  | zero => intro n ds h; exact absurd h (Nat.not_lt_zero n)
  | succ fuel ih =>
    intro n ds hn
    have hmod : n % base < 16 := lt_of_lt_of_le (Nat.mod_lt n (by omega)) h16
    have hmodb : n % base < base := Nat.mod_lt n (by omega)
    by_cases hq : n / base = 0
    · refine ⟨[Nat.digitChar (n % base)], by simp [Nat.toDigitsCore, hq], ?_, by simp, by simp⟩
      have hlt : n < base := (Nat.div_eq_zero_iff (by omega)).mp hq
      have hn16 : n < 16 := lt_of_lt_of_le hlt h16
      simp [numeralValue, Nat.mod_eq_of_lt hlt, digitValue_digitChar n hn16, hlt]
    · have hpos : 0 < n := by
        rcases Nat.eq_zero_or_pos n with h | h
        · simp [h] at hq
        · exact h
      have hlt : n / base < fuel := by
        have : n / base < n := Nat.div_lt_self hpos (by omega)
        omega
      obtain ⟨X, hX, hval, hne, hcanon⟩ := ih (n / base) (Nat.digitChar (n % base) :: ds) hlt
      refine ⟨X ++ [Nat.digitChar (n % base)], by simp [Nat.toDigitsCore, hq, hX], ?_, by simp, ?_⟩
      · rw [List.map_append, List.map_singleton, numeralValue_append, hval]
        simp [digitValue_digitChar _ hmod, hmodb, Nat.div_add_mod']
      · intro hhead
        exfalso
        cases X with
        | nil => exact hne rfl
        | cons c cs =>
          have h48 : (UInt8.ofNat c.toNat) = 48 := by simpa using hhead
          have hX1 := hcanon (by simp [h48])
          rw [hX1] at hval
          have h0 : digitValue 48 = some 0 := by decide
          have : numeralValue base [48] = some 0 := by
            simp [numeralValue, h0]
            omega
          rw [this] at hval
          exact hq (Option.some.inj hval).symm

/-- What `strconv.FormatUint` returns is the numeral of the number in the
base. -/
theorem FormatUint_numeral (base n : Nat) (h2 : 2 ≤ base) (h16 : base ≤ 16) :
    IsNumeral base n (FormatUint n base) := by
  obtain ⟨X, hX, hnum⟩ := toDigitsCore_numeral base h2 h16 (n + 1) n [] (Nat.lt_succ_self n)
  unfold FormatUint Nat.toDigits
  rw [hX, List.append_nil]
  exact hnum

/-- What `strconv.Itoa` returns is the decimal numeral of the integer. -/
theorem Itoa_decimal (i : Int) : IsDecimalInt i (Itoa i) := by
  unfold IsDecimalInt Itoa
  by_cases h : i < 0
  · right
    exact ⟨h, FormatUint i.natAbs 10, by simp [h], FormatUint_numeral 10 _ (by decide) (by decide)⟩
  · left
    exact ⟨not_lt.mp h, by simpa [h] using FormatUint_numeral 10 i.natAbs (by decide) (by decide)⟩

theorem numeralValue_concat_some (base : Nat) (t : GoString) (b : UInt8) (n : Nat)
    (h : numeralValue base (t ++ [b]) = some n) :
    ∃ a d, numeralValue base t = some a ∧ digitValue b = some d ∧ d < base ∧
      n = a * base + d := by
  rw [numeralValue_append] at h
  cases ha : numeralValue base t with
  | none => simp [ha] at h
  | some a =>
    cases hd : digitValue b with
    | none => simp [ha, hd] at h
    | some d =>
      simp only [ha, hd, Option.some_bind] at h
      by_cases hlt : d < base
      · simp only [hlt, if_true] at h
        exact ⟨a, d, rfl, rfl, hlt, (Option.some.inj h).symm⟩
      · simp [hlt] at h

theorem digitValue_byte (b : UInt8) (d : Nat) (hb : digitValue b = some d) :
    b = UInt8.ofNat (Nat.digitChar d).toNat := by
  have h : ∀ n : Fin 256, (digitValue ⟨⟨n⟩⟩).all
      (fun k => decide ((⟨⟨n⟩⟩ : UInt8) = UInt8.ofNat (Nat.digitChar k).toNat)) = true := by
    decide
  obtain ⟨⟨n⟩⟩ := b
  have := h n
  rw [hb] at this
  simpa using this

theorem digitValue_inj (b c : UInt8) (d : Nat) (hb : digitValue b = some d)
    (hc : digitValue c = some d) : b = c := by
  rw [digitValue_byte b d hb, digitValue_byte c d hc]

theorem numeralValue_zero_head (base : Nat) (hbase : 0 < base) :
    ∀ t : GoString, t ≠ [] → numeralValue base t = some 0 → t.head? = some 48 := by
  intro t
  induction t using List.reverseRecOn with
  | nil => intro h; exact absurd rfl h
  | append_singleton init b ih =>
    intro _ hval
    obtain ⟨a, d, ha, hd, _, hn⟩ := numeralValue_concat_some base init b 0 hval
    have hd0 : d = 0 := by omega
    have ha0 : a = 0 := by
      have : a * base = 0 := by omega
      rcases Nat.mul_eq_zero.mp this with h | h
      · exact h
      · omega
    subst hd0 ha0
    cases init with
    | nil =>
      have : b = 48 := digitValue_inj b 48 0 hd (by decide)
      simp [this]
    | cons c cs =>
      have := ih (by simp) ha
      simpa using this

/-- A number has one numeral in a base. -/
theorem IsNumeral_unique (base : Nat) (h2 : 2 ≤ base) :
    ∀ (n : Nat) (s s1 : GoString), IsNumeral base n s → IsNumeral base n s1 → s = s1 := by
  intro n
  induction n using Nat.strong_induction_on with
  | _ n ih =>
    intro s s1 hs hs1
    obtain ⟨hv, hne, hc⟩ := hs
    obtain ⟨hv1, hne1, hc1⟩ := hs1
    obtain ⟨init, b, rfl⟩ : ∃ init b, s = init ++ [b] := by
      rcases List.eq_nil_or_concat s with h | ⟨i, b, h⟩
      · exact absurd h hne
      · exact ⟨i, b, by simpa using h⟩
    obtain ⟨init1, b1, rfl⟩ : ∃ init b, s1 = init ++ [b] := by
      rcases List.eq_nil_or_concat s1 with h | ⟨i, b, h⟩
      · exact absurd h hne1
      · exact ⟨i, b, by simpa using h⟩
    obtain ⟨a, d, ha, hd, hdlt, hn⟩ := numeralValue_concat_some base init b n hv
    obtain ⟨a1, d1, ha1, hd1, hdlt1, hn1⟩ := numeralValue_concat_some base init1 b1 n hv1
    have hdd : d = d1 := by
      have e1 : n % base = d := by rw [hn, Nat.mul_comm, Nat.mul_add_mod, Nat.mod_eq_of_lt hdlt]
      have e2 : n % base = d1 := by
        rw [hn1, Nat.mul_comm, Nat.mul_add_mod, Nat.mod_eq_of_lt hdlt1]
      omega
    have haa : a = a1 := by
      subst hdd
      have : a * base = a1 * base := by omega
      exact Nat.eq_of_mul_eq_mul_right (by omega) this
    subst hdd haa
    have hbb : b = b1 := digitValue_inj b b1 d hd hd1
    subst hbb
    have key : ∀ t : GoString, numeralValue base t = some a →
        ((t ++ [b]).head? = some 48 → t ++ [b] = [48]) → (a = 0 → t = []) ∧
          (t ≠ [] → IsNumeral base a t) := by
      intro t ht hcanon
      have hnil : t ≠ [] → t.head? ≠ some 48 := by
        intro hne hh
        have : (t ++ [b]).head? = some 48 := by
          cases t with
          | nil => exact absurd rfl hne
          | cons c cs => simpa using hh
        have := hcanon this
        cases t with
        | nil => exact absurd rfl hne
        | cons c cs => simp at this
      refine ⟨fun h0 => ?_, fun hne => ⟨ht, hne, fun hh => absurd hh (hnil hne)⟩⟩
      by_contra hne
      exact hnil hne (numeralValue_zero_head base (by omega) t hne (h0 ▸ ht))
    obtain ⟨k0, k1⟩ := key init ha hc
    obtain ⟨m0, m1⟩ := key init1 ha1 hc1
    by_cases h0 : a = 0
    · rw [k0 h0, m0 h0]
    · have hi : init ≠ [] := by
        intro h; rw [h] at ha; simp [numeralValue] at ha; exact h0 ha.symm
      have hi1 : init1 ≠ [] := by
        intro h; rw [h] at ha1; simp [numeralValue] at ha1; exact h0 ha1.symm
      have hlt : a < n := by
        have : a * 2 ≤ a * base := Nat.mul_le_mul_left a h2
        omega
      rw [ih a hlt init init1 (k1 hi) (m1 hi1)]

/-- An integer has one decimal numeral. -/
theorem IsDecimalInt_unique (i : Int) (s s1 : GoString) (hs : IsDecimalInt i s)
    (hs1 : IsDecimalInt i s1) : s = s1 := by
  rcases hs with ⟨h0, hn⟩ | ⟨h0, r, rfl, hn⟩ <;> rcases hs1 with ⟨h1, hn1⟩ | ⟨h1, r1, rfl, hn1⟩
  · exact IsNumeral_unique 10 (by decide) _ _ _ hn hn1
  · omega
  · omega
  · rw [IsNumeral_unique 10 (by decide) _ _ _ hn hn1]

/-! ## Lemmas on fmt.Sprintf -/

theorem Sprintf_ss (a b : GoString) :
    Sprintf (lit "%s%s") [Arg.string a, Arg.string b] = some (a ++ b) := by
  show some (a ++ (b ++ [])) = _
  simp

theorem Sprintf_hits_goroutine (F S : GoString) (L G : Int) (N T PC : Nat) :
    Sprintf (lit "> %s() %s:%d (hits goroutine(%d):%d total:%d) (PC: %#v)")
      [Arg.string F, Arg.string S, Arg.int L, Arg.int G, Arg.uint64 N, Arg.uint64 T,
        Arg.uint64 PC] =
    some (lit "> " ++ F ++ lit "() " ++ S ++ lit ":" ++ Itoa L ++
      lit " (hits goroutine(" ++ Itoa G ++ lit "):" ++ FormatUint N 10 ++ lit " total:" ++
      FormatUint T 10 ++ lit ") (PC: 0x" ++ FormatUint PC 16 ++ lit ")") := by
  have h : Sprintf (lit "> %s() %s:%d (hits goroutine(%d):%d total:%d) (PC: %#v)")
      [Arg.string F, Arg.string S, Arg.int L, Arg.int G, Arg.uint64 N, Arg.uint64 T,
        Arg.uint64 PC] =
    some (lit "> " ++ (F ++ (lit "() " ++ (S ++ (lit ":" ++ (Itoa L ++
      (lit " (hits goroutine(" ++ (Itoa G ++ (lit "):" ++ (FormatUint N 10 ++ (lit " total:" ++
      (FormatUint T 10 ++ (lit ") (PC: 0x" ++ (FormatUint PC 16 ++
      (lit ")" ++ []))))))))))))))) := rfl
  rw [h]
  simp only [List.append_assoc, List.append_nil]

theorem Sprintf_hits_total (F S : GoString) (L : Int) (T PC : Nat) :
    Sprintf (lit "> %s() %s:%d (hits total:%d) (PC: %#v)")
      [Arg.string F, Arg.string S, Arg.int L, Arg.uint64 T, Arg.uint64 PC] =
    some (lit "> " ++ F ++ lit "() " ++ S ++ lit ":" ++ Itoa L ++
      lit " (hits total:" ++ FormatUint T 10 ++ lit ") (PC: 0x" ++
      FormatUint PC 16 ++ lit ")") := by
  have h : Sprintf (lit "> %s() %s:%d (hits total:%d) (PC: %#v)")
      [Arg.string F, Arg.string S, Arg.int L, Arg.uint64 T, Arg.uint64 PC] =
    some (lit "> " ++ (F ++ (lit "() " ++ (S ++ (lit ":" ++ (Itoa L ++
      (lit " (hits total:" ++ (FormatUint T 10 ++ (lit ") (PC: 0x" ++
      (FormatUint PC 16 ++ (lit ")" ++ []))))))))))) := rfl
  rw [h]
  simp only [List.append_assoc, List.append_nil]

/-- C1 (the code departs from the claim): with two or more arguments `parseArgs`
does return the `Too many arguments` error and no breakpoint request, but
`createBreakpoint` does not stop there. It reports the error and goes on: the
next call it makes is `d.client.CreateBreakpoint` with the nil request, and a
nil `bpSign` map has been replaced by an allocated one by the time it ends. -/
theorem createBreakpoint_too_many_arguments_goes_on (env : Env) (eval : createBreakpointEval)
    (w : World) (a b : GoString) (rest : List GoString) :
    parseArgs env (a :: b :: rest) eval w =
      (Res.ok (none, some (GoError.Annotated (GoError.New (lit "Too many arguments")) pkgDelve)), w)
    ∧ (∃ t, (createBreakpoint env (a :: b :: rest) eval w).2.trace =
        w.trace ++ Effect.ErrorWrap
          (some (GoError.Annotated (GoError.New (lit "Too many arguments")) pkgDelve))
          :: Effect.CreateBreakpoint none :: t)
    ∧ (createBreakpoint env (a :: b :: rest) eval { w with bpSign := none }).2.bpSign ≠ none := by
  obtain ⟨up, wc, cb, ⟨sign, serr⟩, pt, ew, co, inp, pip, cl, ra⟩ := env
  obtain ⟨bps, out, tr⟩ := w
  refine ⟨rfl, ?_, ?_⟩
  · simp only [createBreakpoint, parseArgs, bind, pure, ErrorWrap, emit, Annotate, printTerminal,
      raise]
    rcases hcb : cb none with ⟨bp, err⟩
    cases err <;> cases bp <;> cases serr <;> cases bps <;> simp [hcb, raise] <;>
      (try split) <;> simp
  · simp only [createBreakpoint, parseArgs, bind, pure, ErrorWrap, emit, Annotate, printTerminal,
      raise]
    rcases hcb : cb none with ⟨bp, err⟩
    cases err <;> cases bp <;> cases serr <;> simp [hcb, raise]
    split <;> simp

/-- C2 (the code departs from the claim): `parseArgs` does not accept every
single argument. On `main`, which has no `.`, the index expression
`splitargs[1]` is out of range; on `main.`, which has nothing after its `.`,
the slice expression `splitargs[1][:1]` is out of range. Both calls end in a
run-time panic instead of a breakpoint request. -/
theorem parseArgs_single_argument_panics (env : Env) (eval : createBreakpointEval)
    (w : World) :
    parseArgs env [lit "main"] eval w = (Res.panic Panic.indexOutOfRange, w)
    ∧ parseArgs env [lit "main."] eval w = (Res.panic Panic.sliceOutOfRange, w) := by
  constructor <;> rfl

/-- C3: for a single argument made of the pieces `s0`, `s1 = c :: t`, `rest`
joined with `.`, where no piece holds a `.` and `c` is an ASCII byte,
`parseArgs` returns, with no error, the request whose `FunctionName` is the
argument, whose `ID` is the zero value, and whose `Name` is `s0`, then `s1`
with its first character upper-cased (as `Char.toUpper` upper-cases it), then
the pieces of `rest` concatenated. -/
theorem parseArgs_function_name (env : Env) (eval : createBreakpointEval) (w : World)
    (s0 t : GoString) (c : UInt8) (rest : List GoString)
    (hdot : ∀ piece ∈ s0 :: (c :: t) :: rest, (46 : UInt8) ∉ piece) (hc : c < 128) :
    parseArgs env [Join (s0 :: (c :: t) :: rest) (lit ".")] eval w =
      (Res.ok (some { ID := 0, Name := s0 ++ (specUpper c :: t) ++ rest.flatten,
                      FunctionName := Join (s0 :: (c :: t) :: rest) (lit ".") }, none), w) := by
  have hsplit := Split_Join (s0 :: (c :: t) :: rest) 46 (by simp) hdot
  rw [lit_dot, ← upperASCII_eq_specUpper c hc]
  simp only [parseArgs, hsplit]
  simp [Sprintf_ss, ToUpper_ascii _ _ hc, modelled, bind, pure, Join_nil]

/-- C3 at `pkg.Handler`, whose request has `Name` `pkgHandler` and
`FunctionName` `pkg.Handler`; at `pkg.handler`, whose `h` is upper-cased to
the same `Name`; and at `net/http.(*conn).serve`, with two pieces after the
one that is upper-cased. -/
theorem parseArgs_function_name_witness :
    (∀ piece ∈ [lit "pkg", lit "Handler"], (46 : UInt8) ∉ piece)
    ∧ (72 : UInt8) < 128
    ∧ parseArgs exEnv [lit "pkg.Handler"] ⟨lit "main.go"⟩ exWorld =
      (Res.ok (some { ID := 0, Name := lit "pkgHandler", FunctionName := lit "pkg.Handler" },
        none), exWorld)
    ∧ (∀ piece ∈ [lit "pkg", lit "handler"], (46 : UInt8) ∉ piece)
    ∧ (104 : UInt8) < 128
    ∧ parseArgs exEnv [lit "pkg.handler"] ⟨lit "main.go"⟩ exWorld =
      (Res.ok (some { ID := 0, Name := lit "pkgHandler", FunctionName := lit "pkg.handler" },
        none), exWorld)
    ∧ (∀ piece ∈ [lit "net/http", lit "(*conn)", lit "serve"], (46 : UInt8) ∉ piece)
    ∧ (40 : UInt8) < 128
    ∧ parseArgs exEnv [lit "net/http.(*conn).serve"] ⟨lit "main.go"⟩ exWorld =
      (Res.ok (some { ID := 0, Name := lit "net/http(*conn)serve",
                      FunctionName := lit "net/http.(*conn).serve" }, none), exWorld) :=
  ⟨by decide, by decide,
    parseArgs_function_name exEnv ⟨lit "main.go"⟩ exWorld (lit "pkg") (lit "andler") 72 []
      (by decide) (by decide),
    by decide, by decide,
    parseArgs_function_name exEnv ⟨lit "main.go"⟩ exWorld (lit "pkg") (lit "andler") 104 []
      (by decide) (by decide),
    by decide, by decide,
    parseArgs_function_name exEnv ⟨lit "main.go"⟩ exWorld (lit "net/http") (lit "*conn)") 40
      [lit "serve"] (by decide) (by decide)⟩

/-- C4 as stated fails: on `pkg.typ.method` the code derives `pkgTypmethod`,
where title-casing the part after the last `.` gives `pkgtypMethod`. -/
theorem parseArgs_titles_last_dot_counterexample :
    parseArgs exEnv [lit "pkg.typ.method"] ⟨lit "main.go"⟩ exWorld =
      (Res.ok (some { Name := lit "pkgTypmethod", FunctionName := lit "pkg.typ.method" },
        none), exWorld)
    ∧ nameTitlingLastDot (lit "pkg.typ.method") = lit "pkgtypMethod"
    ∧ lit "pkgTypmethod" ≠ nameTitlingLastDot (lit "pkg.typ.method") := by
  refine ⟨by rfl, by decide, by decide⟩

/-- C4 as amended: for a single argument `s0.c rest` whose first `.` is followed
by an ASCII byte `c` other than `.`, the `Name` that `parseArgs` derives is the
argument with its dots removed and with the first byte of the part after the
FIRST `.` upper-cased. -/
theorem parseArgs_titles_first_dot (env : Env) (eval : createBreakpointEval) (w : World)
    (s0 rest : GoString) (c : UInt8) (h0 : (46 : UInt8) ∉ s0) (hc : c < 128) (hc1 : c ≠ 46) :
    parseArgs env [s0 ++ lit "." ++ c :: rest] eval w =
      (Res.ok (some { Name := s0 ++ upperASCII c :: rest.filter (· ≠ 46),
                      FunctionName := s0 ++ lit "." ++ c :: rest }, none), w) := by
  rw [lit_dot]
  have h1 : Split (s0 ++ [46] ++ c :: rest) 46 = s0 :: Split (c :: rest) 46 := by
    simpa using Split_append_sep s0 (c :: rest) 46 h0
  have h2 := flatten_Split (c :: rest) 46
  cases hs : Split (c :: rest) 46 with
  | nil => exact absurd hs (Split_ne_nil _ _)
  | cons p ps =>
    have hp : ∃ t, p = c :: t := by
      simp only [Split, hc1, if_false] at hs
      cases hq : Split rest 46 with
      | nil => exact absurd hq (Split_ne_nil _ _)
      | cons q qs => rw [hq] at hs; simp at hs; exact ⟨q, hs.1.symm⟩
    obtain ⟨t, rfl⟩ := hp
    rw [hs] at h2
    simp only [parseArgs, h1, hs]
    simp [Sprintf_ss, ToUpper_ascii _ _ hc, modelled, bind, pure, Join_nil]
    simp [List.filter_cons, hc1] at h2
    exact h2

/-- C4 as amended, at `pkg.handler` and at `pkg.typ.method`: the names are
`pkgHandler` and `pkgTypmethod`. -/
theorem parseArgs_titles_first_dot_witness :
    (46 : UInt8) ∉ lit "pkg" ∧ (104 : UInt8) < 128 ∧ (104 : UInt8) ≠ 46
    ∧ parseArgs exEnv [lit "pkg.handler"] ⟨lit "main.go"⟩ exWorld =
      (Res.ok (some { Name := lit "pkgHandler", FunctionName := lit "pkg.handler" },
        none), exWorld)
    ∧ parseArgs exEnv [lit "pkg.typ.method"] ⟨lit "main.go"⟩ exWorld =
      (Res.ok (some { Name := lit "pkgTypmethod", FunctionName := lit "pkg.typ.method" },
        none), exWorld) :=
  ⟨by decide, by decide, by decide,
    parseArgs_titles_first_dot exEnv ⟨lit "main.go"⟩ exWorld (lit "pkg") (lit "andler") 104
      (by decide) (by decide) (by decide),
    parseArgs_titles_first_dot exEnv ⟨lit "main.go"⟩ exWorld (lit "pkg") (lit "yp.method") 116
      (by decide) (by decide) (by decide)⟩

/-- C5: when the continue event carries a state that reports `Exited`, `cont`
returns what `nvim.ErrorWrap` makes of the state's annotated error, and the
only calls it made are the continue request and that error report: no `go`
statement ran (no context task, no program-counter marker, no cursor
movement) and nothing was printed to the terminal. -/
theorem cont_exited (env : Env) (eval : continueEval) (w : World) (st : DebuggerState)
    (hst : env.Continue = some st) (hex : st.Exited = true) :
    cont env eval w =
      (Res.ok (env.ErrorWrap (Annotate st.Err pkgDelve)),
        { w with trace := w.trace ++
            [Effect.Continue, Effect.ErrorWrap (Annotate st.Err pkgDelve)] }) := by
  simp [cont, hst, hex, bind, emit, ErrorWrap, pure]

/-- C5 at a state that exited with an error while a thread is still
reported. -/
theorem cont_exited_witness :
    ({ exEnv with Continue := some ⟨some exThread, true, some (GoError.external 9)⟩ } : Env).Continue
        = some ⟨some exThread, true, some (GoError.external 9)⟩
    ∧ (⟨some exThread, true, some (GoError.external 9)⟩ : DebuggerState).Exited = true
    ∧ cont { exEnv with Continue := some ⟨some exThread, true, some (GoError.external 9)⟩ }
        ⟨lit "/w"⟩ exWorld =
      (Res.ok (some (GoError.Annotated (GoError.external 9) pkgDelve)),
        ⟨none, some 1,
          [Effect.Continue,
            Effect.ErrorWrap (some (GoError.Annotated (GoError.external 9) pkgDelve))]⟩) :=
  ⟨rfl, rfl,
    cont_exited { exEnv with Continue := some ⟨some exThread, true, some (GoError.external 9)⟩ }
      ⟨lit "/w"⟩ exWorld ⟨some exThread, true, some (GoError.external 9)⟩ rfl rfl⟩

/-- C6 (the code departs from the claim): when the value received from the
continue channel is nil, the test `state == nil` succeeds and the branch then
reads `state.Err` through the nil pointer: `cont` ends in a nil-dereference
panic right after the continue request, not in a normal return. -/
theorem cont_nil_state_panics (env : Env) (eval : continueEval) (w : World) :
    cont { env with Continue := none } eval w =
      (Res.panic Panic.nilDereference, { w with trace := w.trace ++ [Effect.Continue] }) := by
  simp [cont, bind, emit, raise]

/-- C7: for a stopped thread `t` with a hit breakpoint `bp` and a function `fn`,
`cont` starts its three tasks and then prints, under the command `continue`,
exactly the line of the specification: with the clause `goroutine(G):N` when
`bp.HitCount` has an entry `N` under the decimal string of the goroutine id,
without it otherwise; the file shortened by `shortFilePath`. The numbers in
the line are the decimal numerals of the line, of the goroutine id, of the
count and of the total, and the digits after `0x` are the hexadecimal numeral
of the program counter. -/
theorem cont_log_message (env : Env) (eval : continueEval) (w : World) (st : DebuggerState)
    (t : Thread) (bp : Breakpoint) (fn : Function)
    (hst : env.Continue = some st) (hex : st.Exited = false)
    (ht : st.CurrentThread = some t) (hbp : t.Breakpoint = some bp)
    (hfn : t.Function = some fn) :
    cont env eval w =
      (Res.ok (env.printTerminal (lit "continue")
          (specLogLine fn.Name (shortFilePath t.File eval.Dir) (Itoa t.Line)
            (Itoa t.GoroutineID)
            ((bp.HitCount.lookup (Itoa t.GoroutineID)).map fun N => FormatUint N 10)
            (FormatUint bp.TotalHitCount 10) (FormatUint t.PC 16))),
        { w with trace := w.trace ++
            [Effect.Continue,
              Effect.go (Task.printContext eval.Dir (some t)),
              Effect.go (Task.pcSignPlace t.ID t.Line t.File),
              Effect.go (Task.setWindowCursor t.Line),
              Effect.printTerminal (lit "continue")
                (specLogLine fn.Name (shortFilePath t.File eval.Dir) (Itoa t.Line)
                  (Itoa t.GoroutineID)
                  ((bp.HitCount.lookup (Itoa t.GoroutineID)).map fun N => FormatUint N 10)
                  (FormatUint bp.TotalHitCount 10) (FormatUint t.PC 16))] })
    ∧ IsDecimalInt t.Line (Itoa t.Line)
    ∧ IsDecimalInt t.GoroutineID (Itoa t.GoroutineID)
    ∧ (∀ N : Nat, IsNumeral 10 N (FormatUint N 10))
    ∧ IsNumeral 10 bp.TotalHitCount (FormatUint bp.TotalHitCount 10)
    ∧ IsNumeral 16 t.PC (FormatUint t.PC 16) := by
  refine ⟨?_, Itoa_decimal _, Itoa_decimal _,
    fun N => FormatUint_numeral 10 N (by decide) (by decide),
    FormatUint_numeral 10 _ (by decide) (by decide),
    FormatUint_numeral 16 _ (by decide) (by decide)⟩
  unfold specLogLine
  cases hl : bp.HitCount.lookup (Itoa t.GoroutineID) <;>
    simp [cont, hst, hex, ht, hbp, hfn, hl, bind, pure, emit, modelled, printTerminal,
      Sprintf_hits_goroutine, Sprintf_hits_total]

/-- C7 at the example of the specification (goroutine 3, count 2, total 5,
program counter 1, stopped at `/w/a.go:10` with working directory `/w`); at
the same stop when the breakpoint has no count for goroutine 3; and at a stop
with longer numbers, where the program counter 4584107 is printed as
`0x45f2ab`. -/
theorem cont_log_message_witness :
    exEnv.Continue = some ⟨some exThread, false, none⟩
    ∧ exThread.Breakpoint = some { ID := 1, HitCount := [(lit "3", 2)], TotalHitCount := 5 }
    ∧ exThread.Function = some ⟨lit "F"⟩
    ∧ (cont exEnv ⟨lit "/w"⟩ exWorld).2.trace.getLast? =
      some (Effect.printTerminal (lit "continue")
        (lit "> F() ./a.go:10 (hits goroutine(3):2 total:5) (PC: 0x1)"))
    ∧ (cont { exEnv with Continue := some ⟨some exThreadNoCount, false, none⟩ }
        ⟨lit "/w"⟩ exWorld).2.trace.getLast? =
      some (Effect.printTerminal (lit "continue")
        (lit "> F() ./a.go:10 (hits total:5) (PC: 0x1)"))
    ∧ (cont { exEnv with Continue := some ⟨some exThread2, false, none⟩ }
        ⟨lit "/w"⟩ exWorld).2.trace.getLast? =
      some (Effect.printTerminal (lit "continue")
        (lit "> main.main() ./cmd/app/main.go:128 (hits goroutine(17):12 total:305) (PC: 0x45f2ab)")) :=
  ⟨rfl, rfl, rfl,
    (congrArg (fun r => r.2.trace.getLast?)
      (cont_log_message exEnv ⟨lit "/w"⟩ exWorld ⟨some exThread, false, none⟩ exThread
        { ID := 1, HitCount := [(lit "3", 2)], TotalHitCount := 5 } ⟨lit "F"⟩
        rfl rfl rfl rfl rfl).1).trans (by decide),
    (congrArg (fun r => r.2.trace.getLast?)
      (cont_log_message { exEnv with Continue := some ⟨some exThreadNoCount, false, none⟩ }
        ⟨lit "/w"⟩ exWorld ⟨some exThreadNoCount, false, none⟩ exThreadNoCount
        { ID := 1, HitCount := [(lit "4", 2)], TotalHitCount := 5 } ⟨lit "F"⟩
        rfl rfl rfl rfl rfl).1).trans (by decide),
    (congrArg (fun r => r.2.trace.getLast?)
      (cont_log_message { exEnv with Continue := some ⟨some exThread2, false, none⟩ }
        ⟨lit "/w"⟩ exWorld ⟨some exThread2, false, none⟩ exThread2
        { ID := 2, HitCount := [(lit "3", 2), (lit "17", 12)], TotalHitCount := 305 }
        ⟨lit "main.main"⟩ rfl rfl rfl rfl rfl).1).trans (by decide)⟩

/-! ## shortFilePath -/

/-- C8 (the code departs from the claim): the working directory `/w` is not a
prefix of `/home/w/a.go`, so the path should come back unchanged; both
`shortFilePath` and `pathutil.ShortFilePath` return `/home./a.go`, rewriting
the occurrence inside the path. In the same way, with the working directory
`/go`, the path `/usr/local/go/src/runtime/proc.go` becomes
`/usr/local./src/runtime/proc.go`. A path that does start with the working
directory is shortened as the claim says. -/
theorem shortFilePath_rewrites_inner_occurrence :
    ¬ (lit "/w") <+: (lit "/home/w/a.go")
    ∧ shortFilePath (lit "/home/w/a.go") (lit "/w") = lit "/home./a.go"
    ∧ ShortFilePath (lit "/home/w/a.go") (lit "/w") = lit "/home./a.go"
    ∧ shortFilePath (lit "/home/w/a.go") (lit "/w") ≠ lit "/home/w/a.go"
    ∧ ¬ (lit "/go") <+: (lit "/usr/local/go/src/runtime/proc.go")
    ∧ shortFilePath (lit "/usr/local/go/src/runtime/proc.go") (lit "/go") =
        lit "/usr/local./src/runtime/proc.go"
    ∧ shortFilePath (lit "/w/a.go") (lit "/w") = lit "./a.go" := by
  refine ⟨by decide, by decide, by decide, by decide, by decide, by decide, by decide⟩

/-- What the code does on every input: `shortFilePath` and
`pathutil.ShortFilePath` replace the leftmost occurrence of `cwd` in the
path, wherever it starts. When the path is
`pre ++ cwd ++ post` and `cwd` starts at no offset before the end of `pre`,
the result is `pre ++ "." ++ post` (with `pre` empty: a path `cwd ++ rest`
becomes `"." ++ rest`); when `cwd` occurs nowhere in the path, the path is
returned unchanged. -/
theorem shortFilePath_replaces_leftmost (pre cwd post : GoString)
    (h : ∀ i, i < pre.length → ¬ cwd <+: (pre ++ cwd ++ post).drop i) :
    shortFilePath (pre ++ cwd ++ post) cwd = pre ++ lit "." ++ post
    ∧ ShortFilePath (pre ++ cwd ++ post) cwd = pre ++ lit "." ++ post
    ∧ shortFilePath (cwd ++ post) cwd = lit "." ++ post
    ∧ (∀ p : GoString, ¬ cwd <:+: p →
        shortFilePath p cwd = p ∧ ShortFilePath p cwd = p) := by
  have key : ∀ pre : GoString,
      (∀ i, i < pre.length → ¬ cwd <+: (pre ++ cwd ++ post).drop i) →
      Replace1 (pre ++ cwd ++ post) cwd (lit ".") = pre ++ lit "." ++ post := by
    intro pre h
    unfold Replace1
    split
    · rename_i heq
      rw [heq]
    · rw [Index_leftmost pre cwd post h]
      simp [List.take_append_eq_append_take]
  refine ⟨key pre h, key pre h, by simpa using key [] (by simp), fun p hp => ?_⟩
  have h0 : Replace1 p cwd (lit ".") = p := by
    unfold Replace1
    split
    · rfl
    · rw [Index_absent p cwd hp]
  exact ⟨h0, h0⟩

/-- The leftmost replacement at `/home/w/a.go` with working directory `/w` (an
occurrence inside the path), at `/w/a.go` (a prefix) and at `/x/b.go` (no
occurrence). -/
theorem shortFilePath_replaces_leftmost_witness :
    (∀ i, i < (lit "/home").length →
        ¬ (lit "/w") <+: (lit "/home" ++ lit "/w" ++ lit "/a.go").drop i)
    ∧ ¬ (lit "/w") <:+: (lit "/x/b.go")
    ∧ shortFilePath (lit "/home/w/a.go") (lit "/w") = lit "/home./a.go"
    ∧ shortFilePath (lit "/w/a.go") (lit "/w") = lit "./a.go"
    ∧ shortFilePath (lit "/x/b.go") (lit "/w") = lit "/x/b.go" :=
  ⟨by decide, by decide,
    (shortFilePath_replaces_leftmost (lit "/home") (lit "/w") (lit "/a.go") (by decide)).1,
    (shortFilePath_replaces_leftmost (lit "/home") (lit "/w") (lit "/a.go") (by decide)).2.2.1,
    ((shortFilePath_replaces_leftmost (lit "/home") (lit "/w") (lit "/a.go") (by decide)).2.2.2
      (lit "/x/b.go") (by decide)).1⟩

/-! ## stdin -/

/-- C9 (the code departs from the claim): when the dispatcher call fails, `stdin`
returns from inside the redirection. For every command text and every error,
`os.Stdout` is then still the write end of the pipe; in the sample world it
was file 1 before the call and is file 4 after it. -/
theorem stdin_error_leaves_stdout_redirected (env : Env) (w : World) (text : GoString)
    (e : GoError) :
    (stdin { env with input := (none, some text), Call := fun _ _ => some e } w).2.Stdout =
      env.Pipe.2
    ∧ exWorld.Stdout = some 1
    ∧ (stdin { exEnv with input := (none, some (lit "nosuchcommand")),
                          Call := fun _ _ => some (GoError.external 1) } exWorld).2.Stdout
        = some 4 := by
  refine ⟨?_, rfl, by decide⟩
  obtain ⟨up, wc, cb, ns, pt, ew, co, inp, ⟨r, pw⟩, cl, ra⟩ := env
  simp only [stdin, SplitN2, bind, pure, emit, ErrorWrap]
  cases Index text [32] <;> simp

/-- When the dispatcher call succeeds, `stdin` has put the saved `os.Stdout`
back by the time it returns, whether reading the pipe then fails or not. -/
theorem stdin_success_restores_stdout (env : Env) (w : World) (text : GoString) :
    (stdin { env with input := (none, some text), Call := fun _ _ => none } w).2.Stdout =
      w.Stdout := by
  obtain ⟨up, wc, cb, ns, pt, ew, co, inp, ⟨r, pw⟩, cl, ra⟩ := env
  simp only [stdin, SplitN2, bind, pure, emit, ErrorWrap, printTerminal]
  cases Index text [32] <;> simp <;> split <;> simp

/-! ## debug -/

/-- C11 (the code departs from the claim): when `startServer` fails with `e`,
`debug` only reports the error through `nvim.ErrorWrap` and goes on. It then
creates the debug buffers, returns what `createDebugBuffer` returns (not the
start error), and its deferred `waitServer` waits on the server process. In
the sample environment the start fails with error 5 and `debug` returns nil
after creating the buffers and waiting on the server. -/
theorem debug_start_failure_goes_on (env : Env) (denv : DebugEnv) (eval : debugEval)
    (w : World) (e : GoError) :
    debug env { denv with startServer := fun _ _ => some e } eval w =
      (Res.ok denv.createDebugBuffer,
        { w with trace := w.trace ++
            [Effect.NewPipeline, Effect.SetContext eval.Cwd,
              Effect.startServer (lit "debug")
                (denv.filepathClean (TrimPrefix (denv.FindVCSRoot eval.Dir)
                  (denv.filepathJoin denv.GOPATH (lit "src") ++ denv.Separator))),
              Effect.ErrorWrap (some e), Effect.createDebugBuffer, Effect.waitServer,
              Effect.restoreContext] })
    ∧ debug exEnv exDebugEnv ⟨lit "/go/src/example.com/app", lit "/go/src/example.com/app"⟩
        exWorld =
      (Res.ok none,
        ⟨none, some 1,
          [Effect.NewPipeline, Effect.SetContext (lit "/go/src/example.com/app"),
            Effect.startServer (lit "debug") (lit "example.com/app"),
            Effect.ErrorWrap (some (GoError.external 5)), Effect.createDebugBuffer,
            Effect.waitServer, Effect.restoreContext]⟩) := by
  refine ⟨?_, by decide⟩
  simp [debug, bind, pure, emit, ErrorWrap]

end NvimGo
